import Mathlib

/-!
# Verification of the cluster-app aggregation engine

A shallow embedding, in Lean 4, of the pure data-aggregation pipeline of the
cluster-app front end (source: `src/unnamed/part_001`, with `src/src/App.js`
an agreeing variant).  JavaScript numbers are modelled as exact rationals
(`ℚ`); `NaN` / non-finite outcomes are modelled with `Option`; JavaScript
objects are modelled as association lists from field names to values.

Definitions are translated from the source; each carries the name of the
source function it embeds.
-/

/- Batteries marks the rational field operations `@[irreducible]`, which
blocks `decide` on concrete rational arithmetic; restore the default
reducibility for this file so concrete examples evaluate. -/
attribute [local semireducible] Rat.add Rat.mul Rat.sub Rat.inv

/-- A JavaScript value as stored in a record's survey field: `null`
(covering both `null` and `undefined` where the source treats them alike),
a string, or a (finite) number modelled as a rational. -/
inductive JsVal where
  | null : JsVal
  | str (s : String) : JsVal
  | num (q : ℚ) : JsVal
deriving DecidableEq, Repr

/-- `s.trim` — strip leading and trailing whitespace (structural
re-implementation so terms reduce in the kernel). -/
def trimStr (s : String) : String :=
  String.mk (((s.data.dropWhile Char.isWhitespace).reverse.dropWhile
    Char.isWhitespace).reverse)

/-- `s.toLowerCase()` (ASCII, which covers every string the pipeline
compares). -/
def toLowerStr (s : String) : String :=
  String.mk (s.data.map Char.toLower)

/-- `s.toUpperCase()` (ASCII). -/
def toUpperStr (s : String) : String :=
  String.mk (s.data.map Char.toUpper)

/-- `s.startsWith(pre)`. -/
def startsWithStr (s pre : String) : Bool :=
  pre.data.isPrefixOf s.data

/-- Digits of a decimal string folded into a natural number. -/
def digitsToNat (l : List Char) : ℕ :=
  l.foldl (fun a c => a * 10 + (c.toNat - 48)) 0

/-- Parse an optionally signed run of decimal digits (the exponent of a
JS numeric literal). -/
def parseSignedInt (cs : List Char) : Option ℤ :=
  match cs with
  | '-' :: ds => if ds ≠ [] ∧ ds.all Char.isDigit then some (-(digitsToNat ds : ℤ)) else none
  | '+' :: ds => if ds ≠ [] ∧ ds.all Char.isDigit then some (digitsToNat ds : ℤ) else none
  | ds => if ds ≠ [] ∧ ds.all Char.isDigit then some (digitsToNat ds : ℤ) else none

/-- `Number()` applied to a string (the source uses it in `coerceNumber`,
`coercePrice` and the code-table lookups).  Models JavaScript semantics on
decimal literals: the empty / all-whitespace string is `0`, an optional
sign, integer digits, an optional fraction and an optional exponent are
accepted; every other string (and non-finite results such as
`"Infinity"`) is `none`, standing for a non-finite JS number. -/
def jsParseNumber (s : String) : Option ℚ :=
  let cs := (trimStr s).data
  if cs = [] then some 0
  else
    let (sign, cs) : ℚ × List Char :=
      match cs with
      | '-' :: rest => (-1, rest)
      | '+' :: rest => (1, rest)
      | rest => (1, rest)
    let intPart := cs.takeWhile Char.isDigit
    let rest1 := cs.dropWhile Char.isDigit
    let (fracPart, rest2) : List Char × List Char :=
      match rest1 with
      | '.' :: r => (r.takeWhile Char.isDigit, r.dropWhile Char.isDigit)
      | r => ([], r)
    if intPart = [] ∧ fracPart = [] then none
    else
      let mant : ℚ := (digitsToNat intPart : ℚ) +
        (digitsToNat fracPart : ℚ) / ((10 : ℚ) ^ fracPart.length)
      match rest2 with
      | [] => some (sign * mant)
      | 'e' :: er =>
          match parseSignedInt er with
          | some e => some (sign * mant * (10 : ℚ) ^ e)
          | none => none
      | 'E' :: er =>
          match parseSignedInt er with
          | some e => some (sign * mant * (10 : ℚ) ^ e)
          | none => none
      | _ => none

/-- Number of decimal digits needed to write `q` as a finite decimal
(at most 20, mirroring the precision of a printed JS double), when that
is possible. -/
def decDigits (q : ℚ) : Option ℕ :=
  (List.range 21).find? (fun k => (q * (10 : ℚ) ^ k).den = 1)

/-- `String()` applied to a (finite) number.  Models JS number printing on
numbers with a short finite decimal expansion — the only ones the pipeline
ever prints; other rationals get a `num/den` fallback spelling. -/
def ratToString (q : ℚ) : String :=
  match decDigits q with
  | some 0 => toString q.num
  | some k =>
      let m := (q * (10 : ℚ) ^ k).num
      let sign := if m < 0 then "-" else ""
      let a := m.natAbs
      sign ++ toString (a / 10 ^ k) ++ "." ++
        (String.mk (Nat.toDigits 10 (a % 10 ^ k)).reverse |>.toList.reverse
          |> fun l => String.mk ((List.replicate (k - l.length) '0') ++ l.reverse))
  | none => toString q.num ++ "/" ++ toString q.den

/-- `String(v)` on a field value (`null` prints as `"null"`). -/
def jsStr : JsVal → String
  | .null => "null"
  | .str s => s
  | .num q => ratToString q

/-- `Number(v)` on a field value; `none` models a non-finite result.
(`Number(null)` is `0`, but every caller in the source reaches this only
after a null check, or checks finiteness immediately.) -/
def jsNumber : JsVal → Option ℚ
  | .null => some 0
  | .str s => jsParseNumber s
  | .num q => some q

/-- A JS object (record row) as an association list: absent key =
`undefined`. -/
abbrev Row := List (String × JsVal)

/-- `row?.[field]` — `none` models `undefined`. -/
def rowGet (row : Row) (field : String) : Option JsVal :=
  row.lookup field

/-!  ## §4.5 Domain: `paddedDomain`, `easeInOutQuad`, `tweenDomain`
(source lines 187–206 of `part_001`). -/

/-- Source `paddedDomain(vals)`: `[0,1]` for an empty list, otherwise the
min/max of the values, a synthetic epsilon span when they coincide
(`Math.abs(min || 1) * 0.05`), and 5% padding on each side.  The JS
finiteness guard on min/max is always satisfied in the rational model. -/
def paddedDomain (vals : List ℚ) : ℚ × ℚ :=
  match vals with
  | [] => (0, 1)
  | v :: vs =>
      let mn0 := vs.foldl min v
      let mx0 := vs.foldl max v
      let eps := |if mn0 = 0 then 1 else mn0| * (5 / 100)
      let mn := if mn0 = mx0 then mn0 - eps else mn0
      let mx := if mn0 = mx0 then mx0 + eps else mx0
      (mn - (mx - mn) * (5 / 100), mx + (mx - mn) * (5 / 100))

/-- Source `easeInOutQuad = (t) => (t < 0.5 ? 2*t*t : -1 + (4 - 2*t)*t)`. -/
def easeInOutQuad (t : ℚ) : ℚ :=
  if t < 1 / 2 then 2 * t * t else -1 + (4 - 2 * t) * t

/-- The spec's symmetric ease-in-out quadratic curve:
`e(t) = 2t² (t<0.5); 1-2(1-t)² (t≥0.5)`.  (Spec-side definition, for the
refinement claim C7 only.) -/
def specEase (t : ℚ) : ℚ :=
  if t < 1 / 2 then 2 * t ^ 2 else 1 - 2 * (1 - t) ^ 2

/-- Source `tweenDomain(from, to, t)`: each axis bound interpolates
independently through the easing curve. -/
def tweenDomain (f t : ℚ × ℚ) (prog : ℚ) : ℚ × ℚ :=
  let e := easeInOutQuad prog
  (f.1 + (t.1 - f.1) * e, f.2 + (t.2 - f.2) * e)

/-- Helper: the minimum fold used by `paddedDomain` is a member of the list. -/
theorem foldl_min_mem (vs : List ℚ) (v : ℚ) : vs.foldl min v ∈ v :: vs := by
  induction vs generalizing v with
  | nil => simp
  | cons x xs ih =>
      simp only [List.foldl_cons]
      rcases List.mem_cons.mp (ih (min v x)) with h1 | h1
      · rw [h1]
        rcases le_total v x with hle | hle
        · simp [min_eq_left hle]
        · simp [min_eq_right hle]
      · exact List.mem_cons_of_mem _ (List.mem_cons_of_mem _ h1)

/-- Helper: the minimum fold is a lower bound. -/
theorem foldl_min_le (vs : List ℚ) (v : ℚ) :
    ∀ x ∈ v :: vs, vs.foldl min v ≤ x := by
  induction vs generalizing v with
  | nil => intro x hx; simp at hx; simp [hx]
  | cons y ys ih =>
      intro x hx
      simp only [List.foldl_cons]
      rcases List.mem_cons.mp hx with rfl | h1
      · exact le_trans (ih (min x y) _ (List.mem_cons_self _ _)) (min_le_left _ _)
      · rcases List.mem_cons.mp h1 with rfl | h2
        · exact le_trans (ih (min v x) _ (List.mem_cons_self _ _)) (min_le_right _ _)
        · exact ih (min v y) x (List.mem_cons_of_mem _ h2)

/-- Helper: the maximum fold is a member of the list. -/
theorem foldl_max_mem (vs : List ℚ) (v : ℚ) : vs.foldl max v ∈ v :: vs := by
  induction vs generalizing v with
  | nil => simp
  | cons x xs ih =>
      simp only [List.foldl_cons]
      rcases List.mem_cons.mp (ih (max v x)) with h1 | h1
      · rw [h1]
        rcases le_total v x with hle | hle
        · simp [max_eq_right hle]
        · simp [max_eq_left hle]
      · exact List.mem_cons_of_mem _ (List.mem_cons_of_mem _ h1)

/-- Helper: the maximum fold is an upper bound. -/
theorem foldl_le_max (vs : List ℚ) (v : ℚ) :
    ∀ x ∈ v :: vs, x ≤ vs.foldl max v := by
  induction vs generalizing v with
  | nil => intro x hx; simp at hx; simp [hx]
  | cons y ys ih =>
      intro x hx
      simp only [List.foldl_cons]
      rcases List.mem_cons.mp hx with rfl | h1
      · exact le_trans (le_max_left _ _) (ih (max x y) _ (List.mem_cons_self _ _))
      · rcases List.mem_cons.mp h1 with rfl | h2
        · exact le_trans (le_max_right _ _) (ih (max v x) _ (List.mem_cons_self _ _))
        · exact ih (max v y) x (List.mem_cons_of_mem _ h2)

/-- C7: the implemented easing `t < 0.5 ? 2t² : -1 + (4-2t)t` coincides on
`[0,1]` with the spec's symmetric ease-in-out quadratic
`2t² (t<0.5); 1-2(1-t)² (t≥0.5)`, and `tweenDomain` interpolates each axis
bound independently as `value = from + (to-from)*e(t)`. -/
theorem easing_refines_spec (t : ℚ) (h0 : 0 ≤ t) (h1 : t ≤ 1) :
    easeInOutQuad t = specEase t ∧
    ∀ f0 f1 t0 t1 : ℚ,
      tweenDomain (f0, f1) (t0, t1) t =
        (f0 + (t0 - f0) * specEase t, f1 + (t1 - f1) * specEase t) := by
  have he : easeInOutQuad t = specEase t := by
    unfold easeInOutQuad specEase
    by_cases h : t < 1 / 2
    · rw [if_pos h, if_pos h]; ring
    · rw [if_neg h, if_neg h]; ring
  exact ⟨he, fun f0 f1 t0 t1 => by simp only [tweenDomain]; rw [he]⟩

/-- Witness for C7 at `t = 3/4`. -/
theorem easing_refines_spec_witness :
    easeInOutQuad (3 / 4) = specEase (3 / 4) ∧
    tweenDomain (0, 1) (2, 3) (3 / 4) =
      (0 + (2 - 0) * specEase (3 / 4), 1 + (3 - 1) * specEase (3 / 4)) := by
  have h := easing_refines_spec (3 / 4) (by norm_num) (by norm_num)
  exact ⟨h.1, h.2 0 1 2 3⟩

/-- C8: the empty value list yields `[0, 1]`; a non-empty list with
`min < max` yields 5% padding on each side of `[min, max]`; a degenerate
list (`min = max`, including all-zero) still yields an interval with
`lower < upper` thanks to the synthetic epsilon span. -/
theorem paddedDomain_ok (v : ℚ) (vs : List ℚ) :
    paddedDomain [] = (0, 1) ∧
    (vs.foldl min v ∈ v :: vs ∧ (∀ x ∈ v :: vs, vs.foldl min v ≤ x) ∧
     vs.foldl max v ∈ v :: vs ∧ (∀ x ∈ v :: vs, x ≤ vs.foldl max v)) ∧
    (vs.foldl min v < vs.foldl max v →
      paddedDomain (v :: vs) =
        (vs.foldl min v - (vs.foldl max v - vs.foldl min v) * (5 / 100),
         vs.foldl max v + (vs.foldl max v - vs.foldl min v) * (5 / 100))) ∧
    (vs.foldl min v = vs.foldl max v →
      (paddedDomain (v :: vs)).1 < (paddedDomain (v :: vs)).2) := by
  refine ⟨rfl, ⟨foldl_min_mem vs v, foldl_min_le vs v, foldl_max_mem vs v, foldl_le_max vs v⟩,
    ?_, ?_⟩
  · intro hlt
    have hne : ¬ vs.foldl min v = vs.foldl max v := ne_of_lt hlt
    simp only [paddedDomain]
    rw [if_neg hne, if_neg hne]
  · intro heq
    simp only [paddedDomain]
    rw [if_pos heq, if_pos heq, ← heq]
    set a := vs.foldl min v with ha
    have heps : (0 : ℚ) < |if a = 0 then 1 else a| * (5 / 100) := by
      by_cases hz : a = 0
      · simp [hz]
      · have habs : |if a = 0 then 1 else a| = |a| := by simp [hz]
        rw [habs]
        have : 0 < |a| := abs_pos.mpr hz
        positivity
    set e := |if a = 0 then 1 else a| * (5 / 100) with hedef
    nlinarith [heps]

/-- Witness for C8 on `[3, 5]` (padding case) and `[2, 2]` (degenerate
case). -/
theorem paddedDomain_ok_witness :
    paddedDomain [] = (0, 1) ∧
    paddedDomain [3, 5] = (29 / 10, 51 / 10) ∧
    (paddedDomain [2, 2]).1 < (paddedDomain [2, 2]).2 := by
  have h35 := paddedDomain_ok 3 [5]
  have hmin : ([5] : List ℚ).foldl min 3 = 3 := by
    simp [List.foldl]; norm_num [min_def]
  have hmax : ([5] : List ℚ).foldl max 3 = 5 := by
    simp [List.foldl]; norm_num [max_def]
  refine ⟨h35.1, ?_, ?_⟩
  · have h := h35.2.2.1 (by rw [hmin, hmax]; norm_num)
    rw [hmin, hmax] at h
    rw [h]; norm_num
  · refine (paddedDomain_ok 2 [2]).2.2.2 ?_
    simp [List.foldl]

/-!  ## §4.10 Agreement Scorer: label normalization and per-variable policy
(source lines 625–630 and 710–755 of `part_001`). -/

/-- One pass of `replace(/\s+/g, " ")`: each maximal whitespace run becomes
a single space; `prevWs` records whether the previous character was part of
a whitespace run. -/
def collapseWsAux : Bool → List Char → List Char
  | _, [] => []
  | prevWs, c :: rest =>
      if c.isWhitespace then
        (if prevWs then [] else [' ']) ++ collapseWsAux true rest
      else c :: collapseWsAux false rest

/-- Source `normalizeLabel(s)`: trim, lowercase, collapse internal
whitespace runs to single spaces. -/
def normalizeLabel (s : String) : String :=
  String.mk (collapseWsAux false (toLowerStr (trimStr s)).data)

/-- Source `AGREE_TOP3` — the top-3 agree label set. -/
def AGREE_TOP3 : List String := ["strongly agree", "agree", "somewhat agree"]

/-- Source `AGREE_TOP2` — the top-2 agree label set. -/
def AGREE_TOP2 : List String := ["strongly agree", "somewhat agree"]

/-- The three agreement policies of `agreePolicyFor`. -/
inductive AgreePolicy where
  | LOYAL_ONLY : AgreePolicy
  | TOP2 : AgreePolicy
  | TOP3 : AgreePolicy
deriving DecidableEq, Repr

/-- The `/^STATE_/i` test of `agreePolicyFor`. -/
def matchesStatePrefix (v : String) : Bool :=
  startsWithStr (toUpperStr v) "STATE_"

/-- Source `agreePolicyFor(varName)`. -/
def agreePolicyFor (varName : String) : AgreePolicy :=
  if varName = "OL_MODEL_GRP" then .LOYAL_ONLY
  else if matchesStatePrefix varName then .TOP2
  else .TOP3

/-- Source `isTopNAgree(label, policy)`. -/
def isTopNAgree (label : String) (policy : AgreePolicy) : Bool :=
  match policy with
  | .LOYAL_ONLY => normalizeLabel label == "loyal"
  | .TOP2 => AGREE_TOP2.contains (normalizeLabel label)
  | .TOP3 => AGREE_TOP3.contains (normalizeLabel label)

/-- C2 counterexample: the claim says the label "somewhat agree" does not
count as agree under the top-2 policy used for `STATE_*` variables, but
`AGREE_TOP2` contains "somewhat agree" (it is the set
{"strongly agree", "somewhat agree"}), so it does count. -/
theorem topTwo_somewhat_agree_counts :
    agreePolicyFor "STATE_REFER" = AgreePolicy.TOP2 ∧
    isTopNAgree "somewhat agree" (agreePolicyFor "STATE_REFER") = true := by
  constructor <;> decide

/-- C2 (amended): the loyalty variable `OL_MODEL_GRP` gets the exact-match
policy where only a label normalizing to "loyal" counts; every variable
matching `STATE_*` (case-insensitive) gets the top-2 policy, under which
"somewhat agree" counts as agree and "agree" does not; every other
variable gets the default top-3 policy, under which "Strongly Agree"
counts and "Neutral" does not. -/
theorem agree_policy_by_variable :
    agreePolicyFor "OL_MODEL_GRP" = AgreePolicy.LOYAL_ONLY ∧
    (∀ l : String, isTopNAgree l AgreePolicy.LOYAL_ONLY = true ↔ normalizeLabel l = "loyal") ∧
    (∀ v : String, matchesStatePrefix v = true → agreePolicyFor v = AgreePolicy.TOP2) ∧
    isTopNAgree "somewhat agree" AgreePolicy.TOP2 = true ∧
    isTopNAgree "agree" AgreePolicy.TOP2 = false ∧
    (∀ v : String, v ≠ "OL_MODEL_GRP" → matchesStatePrefix v = false →
      agreePolicyFor v = AgreePolicy.TOP3) ∧
    isTopNAgree "Strongly Agree" AgreePolicy.TOP3 = true ∧
    isTopNAgree "Neutral" AgreePolicy.TOP3 = false := by
  refine ⟨rfl, ?_, ?_, by decide, by decide, ?_, by decide, by decide⟩
  · intro l
    simp [isTopNAgree]
  · intro v hv
    have hne : v ≠ "OL_MODEL_GRP" := by
      intro he
      rw [he] at hv
      exact absurd hv (by decide)
    simp [agreePolicyFor, hne, hv]
  · intro v hne hv
    simp [agreePolicyFor, hne, hv]

/-- Witness for C2 (amended) at concrete variables and labels. -/
theorem agree_policy_by_variable_witness :
    agreePolicyFor "STATE_BUY_BEST" = AgreePolicy.TOP2 ∧
    agreePolicyFor "PV_VALUE" = AgreePolicy.TOP3 ∧
    (isTopNAgree "LOYAL" AgreePolicy.LOYAL_ONLY = true ↔ normalizeLabel "LOYAL" = "loyal") := by
  have h := agree_policy_by_variable
  exact ⟨h.2.2.1 "STATE_BUY_BEST" (by decide),
    h.2.2.2.2.2.1 "PV_VALUE" (by decide) (by decide),
    h.2.1 "LOYAL"⟩

/-!  ## §4.11 Geo Resolver/Aggregator: `toStateName` and `stateAgg`
(source lines 44–117 and 1097–1120 of `part_001`). -/

/-- Source `US_STATE_ABBR_TO_NAME`, in source order. -/
def US_STATE_ABBR_TO_NAME : List (String × String) := [
  ("AL", "Alabama"), ("AK", "Alaska"), ("AZ", "Arizona"), ("AR", "Arkansas"),
  ("CA", "California"), ("CO", "Colorado"), ("CT", "Connecticut"),
  ("DE", "Delaware"), ("FL", "Florida"), ("GA", "Georgia"), ("HI", "Hawaii"),
  ("ID", "Idaho"), ("IL", "Illinois"), ("IN", "Indiana"), ("IA", "Iowa"),
  ("KS", "Kansas"), ("KY", "Kentucky"), ("LA", "Louisiana"), ("ME", "Maine"),
  ("MD", "Maryland"), ("MA", "Massachusetts"), ("MI", "Michigan"),
  ("MN", "Minnesota"), ("MS", "Mississippi"), ("MO", "Missouri"),
  ("MT", "Montana"), ("NE", "Nebraska"), ("NV", "Nevada"),
  ("NH", "New Hampshire"), ("NJ", "New Jersey"), ("NM", "New Mexico"),
  ("NY", "New York"), ("NC", "North Carolina"), ("ND", "North Dakota"),
  ("OH", "Ohio"), ("OK", "Oklahoma"), ("OR", "Oregon"), ("PA", "Pennsylvania"),
  ("RI", "Rhode Island"), ("SC", "South Carolina"), ("SD", "South Dakota"),
  ("TN", "Tennessee"), ("TX", "Texas"), ("UT", "Utah"), ("VT", "Vermont"),
  ("VA", "Virginia"), ("WA", "Washington"), ("WV", "West Virginia"),
  ("WI", "Wisconsin"), ("WY", "Wyoming"), ("DC", "District of Columbia")]

/-- Source `US_STATE_NAME_SET` (insertion order of the object's values). -/
def US_STATE_NAMES : List String := US_STATE_ABBR_TO_NAME.map (fun p => p.2)

/-- `US_STATE_ABBR_TO_NAME[ab]` as an association-list lookup. -/
def lookupAbbr (ab : String) : Option String :=
  US_STATE_ABBR_TO_NAME.lookup ab

/-- A regex word character (`\w` = `[A-Za-z0-9_]`). -/
def isWordChar (c : Char) : Bool := c.isAlphanum || c = '_'

/-- Maximal runs of word characters of a string (accumulator holds the
current run reversed). -/
def wordRunsAux : List Char → List Char → List (List Char)
  | acc, [] => if acc = [] then [] else [acc.reverse]
  | acc, c :: rest =>
      if isWordChar c then wordRunsAux (c :: acc) rest
      else if acc = [] then wordRunsAux [] rest
      else acc.reverse :: wordRunsAux [] rest

/-- A token matching `[A-Z]{2}` exactly. -/
def isTwoUpperToken (t : List Char) : Bool :=
  t.length = 2 && t.all (fun c => 'A' ≤ c && c ≤ 'Z')

/-- The matches of `/\b[A-Z]{2}\b/g` on `s`: a match is a maximal
word-character run consisting of exactly two uppercase letters (the `\b`
boundaries force the run to be maximal). -/
def twoUpperTokens (s : String) : List String :=
  ((wordRunsAux [] s.data).filter isTwoUpperToken).map String.mk

/-- Source `toStateName(labelRaw)`: (1) two-letter abbreviation match after
uppercasing, (2) case-insensitive full-name match against the state-name
set in insertion order, (3) first embedded two-letter uppercase token that
is a known abbreviation; otherwise no identity.  The JS falsy guard on the
argument is the empty-string test for string input. -/
def toStateName (labelRaw : String) : Option String :=
  if labelRaw = "" then none
  else
    let s := trimStr labelRaw
    match lookupAbbr (toUpperStr s) with
    | some n => some n
    | none =>
        match US_STATE_NAMES.find? (fun n => toLowerStr n == toLowerStr s) with
        | some n => some n
        | none =>
            match (twoUpperTokens s).find? (fun tok => (lookupAbbr (toUpperStr tok)).isSome) with
            | some tok => lookupAbbr (toUpperStr tok)
            | none => none

/-- Insertion-ordered association-list update: apply `f` to the value at
`k`, or append `(k, v0)` when the key is new (models updating a JS `Map`
that preserves insertion order). -/
def upsert {κ ν : Type} [DecidableEq κ] (k : κ) (f : ν → ν) (v0 : ν) :
    List (κ × ν) → List (κ × ν)
  | [] => [(k, v0)]
  | (k', v') :: rest =>
      if k' = k then (k', f v') :: rest else (k', v') :: upsert k f v0 rest

/-- `counts.set(name, (counts.get(name) || 0) + 1)`. -/
def bumpCount {κ : Type} [DecidableEq κ] (k : κ) (l : List (κ × ℕ)) :
    List (κ × ℕ) :=
  upsert k (fun c => c + 1) 1 l

/-- The loop body of `stateAgg`: skip an unresolved row, otherwise count
its state name and increment the resolved total. -/
def stateAggStep (acc : List (String × ℕ) × ℕ) (nm : Option String) :
    List (String × ℕ) × ℕ :=
  match nm with
  | none => acc
  | some name => (bumpCount name acc.1, acc.2 + 1)

/-- The result of `stateAgg`. -/
structure StateAgg where
  counts : List (String × ℕ)
  pcts : List (String × ℚ)
  total : ℕ
  maxPct : ℚ
deriving Repr

/-- Source `stateAgg` over the per-row resolved state names
(`getRowStateName(r)` for each row of `mapBaseRows`): count resolved
identities, total them, and derive `percentage = count/total*100` per state
plus the maximum percentage. -/
def stateAgg (names : List (Option String)) : StateAgg :=
  let fold := names.foldl stateAggStep ([], 0)
  let counts := fold.1
  let total := fold.2
  let pcts :=
    if 0 < total then counts.map (fun p => (p.1, (p.2 : ℚ) / total * 100)) else []
  let maxPct :=
    if 0 < total then
      (counts.map (fun p => (p.2 : ℚ) / total * 100)).foldl max 0
    else 0
  ⟨counts, pcts, total, maxPct⟩

/-- Helper: bumping a count raises the total count mass by one. -/
theorem bumpCount_sum {κ : Type} [DecidableEq κ] (k : κ) (l : List (κ × ℕ)) :
    ((bumpCount k l).map (fun p => p.2)).sum = ((l.map (fun p => p.2)).sum) + 1 := by
  induction l with
  | nil => simp [bumpCount, upsert]
  | cons hd tl ih =>
      by_cases h : hd.1 = k
      · simp [bumpCount, upsert, h]
        omega
      · simp only [bumpCount, upsert, h, if_false, List.map_cons, List.sum_cons]
        rw [show upsert k (fun c => c + 1) 1 tl = bumpCount k tl from rfl, ih]
        omega

/-- Helper: the `stateAgg` fold counts exactly the resolved (`some`)
entries, both in the total and in the per-state count mass. -/
theorem stateAgg_fold (names : List (Option String))
    (acc : List (String × ℕ) × ℕ) :
    (names.foldl stateAggStep acc).2 =
      acc.2 + (names.filter Option.isSome).length ∧
    ((names.foldl stateAggStep acc).1.map (fun p => p.2)).sum =
      ((acc.1.map (fun p => p.2)).sum) + (names.filter Option.isSome).length := by
  induction names generalizing acc with
  | nil => simp
  | cons nm rest ih =>
      cases nm with
      | none => simpa [stateAggStep] using ih acc
      | some name =>
          have h := ih (bumpCount name acc.1, acc.2 + 1)
          simp only [List.foldl_cons, stateAggStep] at h ⊢
          refine ⟨?_, ?_⟩
          · rw [h.1]; simp [List.filter]; omega
          · rw [h.2, bumpCount_sum]; simp [List.filter]; omega

/-- C9: `"ca"` and `"California"` both resolve to the canonical identity
`"California"` (via abbreviation match and case-insensitive full-name
match respectively); an unrecognized raw value (e.g. `"Atlantis"`)
resolves to no identity; and the state aggregate's resolved total — the
denominator of its percentages — counts exactly the rows whose value
resolved to some identity. -/
theorem geo_resolution_ok (names : List (Option String)) :
    toStateName "ca" = some "California" ∧
    toStateName "California" = some "California" ∧
    toStateName "Atlantis" = none ∧
    (stateAgg names).total = (names.filter Option.isSome).length ∧
    ((stateAgg names).counts.map (fun p => p.2)).sum = (stateAgg names).total ∧
    (stateAgg names).pcts =
      (if 0 < (stateAgg names).total then
        (stateAgg names).counts.map
          (fun p => (p.1, (p.2 : ℚ) / (stateAgg names).total * 100))
      else []) := by
  have hf := stateAgg_fold names ([], 0)
  refine ⟨by decide, by decide, by decide, ?_, ?_, rfl⟩
  · simpa [stateAgg] using hf.1
  · simp only [stateAgg]
    rw [hf.2, hf.1]
    simp

/-!  ## §4.3–4.4 Normalized records, scope, centroids and collapse
(source lines 763–949 of `part_001`). -/

/-- A normalized record as produced by the row normalizer: canonical
model name, finite cluster and embedding coordinates (`raw_x/raw_y` a
permanent copy, `emb_x/emb_y` the displayed coordinates, equal to the raw
ones at normalization time), plus the open bag of survey fields. -/
structure Rec where
  model : String
  cluster : ℚ
  raw_x : ℚ
  raw_y : ℚ
  emb_x : ℚ
  emb_y : ℚ
  fields : Row
deriving DecidableEq, Repr

/-- A grouping key: cluster id or model name, per the `colorMode` toggle. -/
inductive GKey where
  | cluster (c : ℚ) : GKey
  | model (m : String) : GKey
deriving DecidableEq, Repr

/-- `colorMode === "cluster" ? r.cluster : String(r.model)`. -/
def groupKeyOf (clusterMode : Bool) (r : Rec) : GKey :=
  if clusterMode then .cluster r.cluster else .model r.model

/-- Source `lerp(a, b, t) = a + (b - a) * t`. -/
def lerp (a b t : ℚ) : ℚ := a + (b - a) * t

/-- The running-sums accumulation of `centroidsByGroup`: per group key a
triple (sumX, sumY, n), built over the plot frame in insertion order. -/
def centroidsAcc (mode : Bool) (frame : List Rec) :
    List (GKey × (ℚ × ℚ × ℕ)) :=
  frame.foldl (fun acc r =>
    upsert (groupKeyOf mode r)
      (fun s => (s.1 + r.emb_x, s.2.1 + r.emb_y, s.2.2 + 1))
      (r.emb_x, r.emb_y, 1) acc) []

/-- Source `centroidsByGroup`: arithmetic-mean centroid per group key over
the plot frame. -/
def centroidsByGroup (frame : List Rec) (mode : Bool) :
    List (GKey × (ℚ × ℚ)) :=
  (centroidsAcc mode frame).map
    (fun p => (p.1, (p.2.1 / (p.2.2.2 : ℚ), p.2.2.1 / (p.2.2.2 : ℚ))))

/-- Source `plotDataCentered`: at `centerT ≤ 0` the frame is returned
as-is; otherwise each record's displayed coordinate is interpolated from
its raw coordinate toward its group's centroid, raw coordinates kept
intact. -/
def plotDataCentered (frame : List Rec) (cents : List (GKey × (ℚ × ℚ)))
    (t : ℚ) (mode : Bool) : List Rec :=
  if t ≤ 0 then frame
  else
    frame.map (fun r =>
      match cents.lookup (groupKeyOf mode r) with
      | some c => { r with emb_x := lerp r.raw_x c.1 t, emb_y := lerp r.raw_y c.2 t }
      | none => r)

/-- Helper: interpolation at parameter 1 lands on the target. -/
theorem lerp_one (a b : ℚ) : lerp a b 1 = b := by
  unfold lerp; ring

/-- C3: for every scope and grouping mode, collapse at `t = 0` returns the
input scope unchanged, and collapse at `t = 1` places every record whose
group has a centroid exactly at that centroid (records without a centroid
entry are left untouched, and `displayed = raw + (centroid - raw) * t`
degenerates to the centroid at `t = 1`). -/
theorem collapse_endpoints (frame : List Rec) (mode : Bool) :
    plotDataCentered frame (centroidsByGroup frame mode) 0 mode = frame ∧
    plotDataCentered frame (centroidsByGroup frame mode) 1 mode =
      frame.map (fun r =>
        match (centroidsByGroup frame mode).lookup (groupKeyOf mode r) with
        | some c => { r with emb_x := c.1, emb_y := c.2 }
        | none => r) := by
  constructor
  · simp [plotDataCentered]
  · rw [plotDataCentered, if_neg (by norm_num : ¬ (1 : ℚ) ≤ 0)]
    apply List.map_congr_left
    intro r _
    cases h : (centroidsByGroup frame mode).lookup (groupKeyOf mode r) with
    | none => rfl
    | some c => simp [lerp_one]

/-!  ## §4.3 and §4.5 Scope resolution and target domains
(source lines 798–889 and 1050–1057 of `part_001`). -/

/-- Stable string insertion (ascending, ties keep original order). -/
def insertStr (x : String) : List String → List String
  | [] => [x]
  | y :: ys => if decide (x < y) ∨ x = y then x :: y :: ys else y :: insertStr x ys

/-- `Array.prototype.sort()` on strings: stable ascending sort by code
units. -/
def sortStrs : List String → List String
  | [] => []
  | x :: xs => insertStr x (sortStrs xs)

/-- Source `allModels`: the sorted set of model names over all rows. -/
def allModels (rows : List Rec) : List String :=
  sortStrs ((rows.map (fun r => r.model)).dedup)

/-- Source `baseByModel`: the model filter only; an empty selection means
"all models". -/
def baseByModel (rows : List Rec) (selectedModels : List String) : List Rec :=
  let active := if selectedModels ≠ [] then selectedModels else allModels rows
  rows.filter (fun r => active.contains r.model)

/-- Source `plotFrame`: model filter plus the optional cluster zoom. -/
def plotFrame (rows : List Rec) (sel : List String) (zoom : Option ℚ) :
    List Rec :=
  match zoom with
  | none => baseByModel rows sel
  | some c => (baseByModel rows sel).filter (fun r => r.cluster = c)

/-- The user parameters the scatter pipeline consumes. -/
structure Params where
  selectedModels : List String
  zoomCluster : Option ℚ
  clusterMode : Bool
  centerT : ℚ

/-- The scatter pipeline: plot frame, centroids, collapsed plot data, and
the target axis domains `targetX`/`targetY`, which the source derives from
the (pre-collapse) plot frame. -/
def pipeline (rows : List Rec) (p : Params) :
    List Rec × ((ℚ × ℚ) × (ℚ × ℚ)) :=
  let frame := plotFrame rows p.selectedModels p.zoomCluster
  let cents := centroidsByGroup frame p.clusterMode
  let plotData := plotDataCentered frame cents p.centerT p.clusterMode
  let targetX := paddedDomain (frame.map (fun r => r.emb_x))
  let targetY := paddedDomain (frame.map (fun r => r.emb_y))
  (plotData, (targetX, targetY))

/-- C6: two pipeline runs that differ only in `collapseT` (`centerT`)
produce identical target X and Y domains — the domains are derived from
the pre-collapse plot frame, so the collapse parameter cannot perturb the
axis scale. -/
theorem domain_ignores_collapseT (rows : List Rec) (p : Params) (t t' : ℚ) :
    (pipeline rows { p with centerT := t }).2 =
      (pipeline rows { p with centerT := t' }).2 ∧
    (pipeline rows p).2 =
      (paddedDomain ((plotFrame rows p.selectedModels p.zoomCluster).map
        (fun r => r.emb_x)),
       paddedDomain ((plotFrame rows p.selectedModels p.zoomCluster).map
        (fun r => r.emb_y))) :=
  ⟨rfl, rfl⟩

/-!  ## §4.9 Price Bucketizer: `coercePrice`, `bucketLabel`,
`getFixedBucketRanges`, `buildBucketsForRows`
(source lines 322–462 of `part_001`). -/

/-- Source `coercePrice(v)`: `null`/`undefined` coerce to NaN; otherwise
`Number(String(v).replace(/[$,]/g, "").trim())`. -/
def coercePrice (v : Option JsVal) : Option ℚ :=
  match v with
  | none => none
  | some .null => none
  | some w =>
      jsParseNumber (String.mk ((jsStr w).data.filter (fun c => !(c == '$' || c == ','))))

/-- Source `BUCKET_MIN` — start of the first 5k bucket. -/
def BUCKET_MIN : ℚ := 30000

/-- Source `BUCKET_STEP` — bucket width. -/
def BUCKET_STEP : ℚ := 5000

/-- Source `OVER_MIN` — start of the catch-all over bucket. -/
def OVER_MIN : ℚ := 110000

/-- Source `fmtK(n)` = `` `$${Math.round(n / 1000)}k` ``. -/
def fmtK (n : ℚ) : String :=
  "$" ++ toString (round (n / 1000)) ++ "k"

/-- `x.toFixed(1)` for values with an exact short decimal form. -/
def toFixed1 (q : ℚ) : String :=
  let m := round (q * 10)
  let sign := if m < 0 then "-" else ""
  let a := m.natAbs
  sign ++ toString (a / 10) ++ "." ++ toString (a % 10)

/-- Source `fmtKDec(n)` = `` `$${(n / 1000).toFixed(1)}k` ``. -/
def fmtKDec (n : ℚ) : String :=
  "$" ++ toFixed1 (n / 1000) ++ "k"

/-- A bucket range; `none` bounds model the `±Infinity` of the source. -/
structure PriceRange where
  low : Option ℚ
  high : Option ℚ
  label : String
deriving DecidableEq, Repr

/-- Source `bucketLabel(low, high)`. -/
def bucketLabel (low high : Option ℚ) : String :=
  match low, high with
  | none, _ => "Under $30k"
  | _, none => "$110k+"
  | some l, some h => fmtK l ++ " to " ++ fmtKDec (h - 100)

/-- The lows of the sixteen 5k-wide buckets: the source loop
`for (low = BUCKET_MIN; low < OVER_MIN; low += BUCKET_STEP)` runs
`(OVER_MIN - BUCKET_MIN) / BUCKET_STEP = 16` times. -/
def midLows : List ℚ :=
  (List.range 16).map (fun i => BUCKET_MIN + (i : ℚ) * BUCKET_STEP)

/-- Source `getFixedBucketRanges()`: the open under bucket, the sixteen
5k-wide buckets, the open over bucket, each with its display label. -/
def getFixedBucketRanges : List PriceRange :=
  ⟨none, some BUCKET_MIN, bucketLabel none (some BUCKET_MIN)⟩ ::
  (midLows.map (fun low =>
    ⟨some low, some (low + BUCKET_STEP), bucketLabel (some low) (some (low + BUCKET_STEP))⟩) ++
  [⟨some OVER_MIN, none, bucketLabel (some OVER_MIN) none⟩])

/-- Membership of a price in a range (`[low, high)`, open at infinite
ends) — the semantics the index computation below is claimed to realize. -/
def inPriceRange (r : PriceRange) (v : ℚ) : Bool :=
  (match r.low with | none => true | some l => decide (l ≤ v)) &&
  (match r.high with | none => true | some h => decide (v < h))

/-- The bucket index assignment of `buildBucketsForRows`:
`v < BUCKET_MIN → 0`, `v ≥ OVER_MIN → buckets.length - 1 = 17`, otherwise
`1 + Math.max(0, Math.min(floor((v - BUCKET_MIN)/BUCKET_STEP), 15))`. -/
def bucketIdx (v : ℚ) : ℕ :=
  if v < BUCKET_MIN then 0
  else if OVER_MIN ≤ v then 17
  else 1 + (max 0 (min ⌊(v - BUCKET_MIN) / BUCKET_STEP⌋ 15)).toNat

/-- An output row of `buildBucketsForRows` (`{label, pct, count}`). -/
structure BucketOut where
  label : String
  pct : ℚ
  count : ℕ
deriving DecidableEq, Repr

/-- Source `buildBucketsForRows(rows)`: coerce prices, drop non-finite
ones, count per bucket index, normalize to percentages of the valid
total; an empty valid set yields no data. -/
def buildBucketsForRows (rows : List Rec) : List BucketOut × ℕ :=
  let vals := rows.filterMap (fun r => coercePrice (rowGet r.fields "FIN_PRICE_UNEDITED"))
  let totalValid := vals.length
  if totalValid = 0 then ([], 0)
  else
    let data := getFixedBucketRanges.enum.map (fun p =>
      let cnt := (vals.filter (fun v => bucketIdx v = p.1)).length
      ⟨p.2.label, (cnt : ℚ) / (totalValid : ℚ) * 100, cnt⟩)
    (data, totalValid)

/-- Helper: the bucket index is always one of the 18 buckets. -/
theorem bucketIdx_lt (v : ℚ) : bucketIdx v < 18 := by
  unfold bucketIdx
  split_ifs with h1 h2
  · norm_num
  · norm_num
  · have : min ⌊(v - BUCKET_MIN) / BUCKET_STEP⌋ 15 ≤ 15 := min_le_right _ _
    have h3 : max 0 (min ⌊(v - BUCKET_MIN) / BUCKET_STEP⌋ 15) ≤ 15 :=
      max_le (by norm_num) this
    omega

/-- Helper: characterization of the under bucket. -/
theorem bucketIdx_under_iff (v : ℚ) : (v < 30000 ↔ 0 = bucketIdx v) := by
  unfold bucketIdx BUCKET_MIN OVER_MIN
  constructor
  · intro h; rw [if_pos h]
  · intro h
    by_contra hlt
    rw [if_neg hlt] at h
    split_ifs at h <;> omega

/-- Helper: characterization of the over bucket. -/
theorem bucketIdx_over_iff (v : ℚ) : (110000 ≤ v ↔ 17 = bucketIdx v) := by
  unfold bucketIdx BUCKET_MIN OVER_MIN
  constructor
  · intro h
    rw [if_neg (by linarith), if_pos h]
  · intro h
    split_ifs at h with h1 h2
    · exact h2
    · exfalso
      have hm : min ⌊(v - 30000) / 5000⌋ 15 ≤ 15 := min_le_right _ _
      have h3 : max 0 (min ⌊(v - 30000) / 5000⌋ 15) ≤ 15 := max_le (by norm_num) hm
      omega

/-- Helper: characterization of the sixteen middle buckets. -/
theorem bucketIdx_mid_iff (v L H : ℚ) (j i : ℕ)
    (hL : L = 30000 + (j : ℚ) * 5000) (hH : H = L + 5000) (hj : j ≤ 15)
    (hi : i = j + 1) :
    (L ≤ v ∧ v < H ↔ i = bucketIdx v) := by
  subst hL hH hi
  unfold bucketIdx BUCKET_MIN BUCKET_STEP OVER_MIN
  constructor
  · rintro ⟨hlo, hhi⟩
    have hjq : (j : ℚ) ≤ 15 := by exact_mod_cast hj
    have h1 : ¬ v < 30000 := by push_neg; nlinarith
    have h2 : ¬ 110000 ≤ v := by push_neg; nlinarith
    rw [if_neg h1, if_neg h2]
    have hfl : ⌊(v - 30000) / 5000⌋ = (j : ℤ) := by
      rw [Int.floor_eq_iff]
      constructor
      · rw [le_div_iff₀ (by norm_num : (0:ℚ) < 5000)]
        push_cast
        linarith
      · rw [div_lt_iff₀ (by norm_num : (0:ℚ) < 5000)]
        push_cast
        linarith
    rw [hfl]
    have hminj : min ((j : ℤ)) 15 = (j : ℤ) := min_eq_left (by exact_mod_cast hj)
    rw [hminj]
    have hmaxj : max (0 : ℤ) (j : ℤ) = (j : ℤ) := max_eq_right (by positivity)
    rw [hmaxj]
    omega
  · intro h
    split_ifs at h with h1 h2
    · exfalso
      have hm : min ⌊(v - 30000) / 5000⌋ 15 ≤ 15 := min_le_right _ _
      have h3 : max 0 (min ⌊(v - 30000) / 5000⌋ 15) ≤ 15 := max_le (by norm_num) hm
      omega
    · push_neg at h1
      push_neg at h2
      set s := ⌊(v - 30000) / 5000⌋ with hs
      have hs0 : 0 ≤ s := Int.floor_nonneg.mpr (div_nonneg (by linarith) (by norm_num))
      have hs15 : s ≤ 15 := by
        have hd : (v - 30000) / 5000 < 16 := by
          rw [div_lt_iff₀ (by norm_num : (0:ℚ) < 5000)]
          linarith
        have h16 : s < 16 := by
          rw [hs]
          exact_mod_cast Int.floor_lt.mpr (by exact_mod_cast hd)
        omega
      have hclamp : max 0 (min s 15) = s := by
        rw [min_eq_left hs15, max_eq_right hs0]
      rw [hclamp] at h
      have hsj : s = (j : ℤ) := by omega
      have hfl := Int.lt_floor_add_one ((v - 30000) / 5000)
      have hfl2 := Int.floor_le ((v - 30000) / 5000)
      rw [← hs, hsj] at hfl hfl2
      constructor
      · rw [le_div_iff₀ (by norm_num : (0:ℚ) < 5000)] at hfl2
        push_cast at hfl2 ⊢
        linarith
      · rw [div_lt_iff₀ (by norm_num : (0:ℚ) < 5000)] at hfl
        push_cast at hfl ⊢
        linarith

/-- Helper: the 18 per-bucket filters partition any valid price list. -/
theorem sum_filter_bucketIdx (vals : List ℚ) :
    ((List.range 18).map
      (fun i => (vals.filter (fun v => bucketIdx v = i)).length)).sum = vals.length := by
  induction vals with
  | nil => simp
  | cons v vs ih =>
      have hrw : ((List.range 18).map
          (fun i => ((v :: vs).filter (fun w => bucketIdx w = i)).length)) =
          ((List.range 18).map
          (fun i => (if bucketIdx v = i then 1 else 0) +
            (vs.filter (fun w => bucketIdx w = i)).length)) := by
        apply List.map_congr_left
        intro i _
        by_cases h : bucketIdx v = i <;> simp [List.filter_cons, h] <;> omega
      rw [hrw]
      have hsum : ((List.range 18).map
          (fun i => (if bucketIdx v = i then 1 else 0) +
            (vs.filter (fun w => bucketIdx w = i)).length)).sum =
          (∑ i in Finset.range 18, ((if bucketIdx v = i then 1 else 0) +
            (vs.filter (fun w => bucketIdx w = i)).length)) := rfl
      rw [hsum, Finset.sum_add_distrib, Finset.sum_ite_eq]
      have hin : bucketIdx v ∈ Finset.range 18 := Finset.mem_range.mpr (bucketIdx_lt v)
      rw [if_pos hin]
      have hback : (∑ i in Finset.range 18,
          (vs.filter (fun w => bucketIdx w = i)).length) =
          ((List.range 18).map
            (fun i => (vs.filter (fun w => bucketIdx w = i)).length)).sum := rfl
      rw [hback, ih, List.length_cons]
      omega

/-- The example rows of the claim: prices 29000, 31000 and 112000. -/
def priceRowsEx : List Rec :=
  [⟨"M", 0, 0, 0, 0, 0, [("FIN_PRICE_UNEDITED", JsVal.num 29000)]⟩,
   ⟨"M", 0, 0, 0, 0, 0, [("FIN_PRICE_UNEDITED", JsVal.num 31000)]⟩,
   ⟨"M", 0, 0, 0, 0, 0, [("FIN_PRICE_UNEDITED", JsVal.num 112000)]⟩]


/-- C4: the fixed price-bucket scheme is exhaustive and mutually
exclusive — there are 18 buckets (open under bucket below 30000, sixteen
5000-wide buckets from 30000 up to 110000, open over bucket at/above
110000), every price lies in the bucket whose index the source assigns it
and in no other, and the bucket counts of `buildBucketsForRows` sum to the
number of valid prices; the claim's concrete example yields counts 1 in
"Under $30k", "$30k to $34.9k" and "$110k+", each at pct `100/3`, which
displays as 33.3. -/
theorem price_buckets_ok (rows : List Rec) (v : ℚ) :
    getFixedBucketRanges.length = 18 ∧
    getFixedBucketRanges.map (fun r => (r.low, r.high)) =
      [(none, some 30000),
       (some 30000, some 35000),
       (some 35000, some 40000),
       (some 40000, some 45000),
       (some 45000, some 50000),
       (some 50000, some 55000),
       (some 55000, some 60000),
       (some 60000, some 65000),
       (some 65000, some 70000),
       (some 70000, some 75000),
       (some 75000, some 80000),
       (some 80000, some 85000),
       (some 85000, some 90000),
       (some 90000, some 95000),
       (some 95000, some 100000),
       (some 100000, some 105000),
       (some 105000, some 110000),
       (some 110000, none)] ∧
    (∀ i : ℕ, i < 18 →
      (inPriceRange (getFixedBucketRanges.getD i ⟨none, none, ""⟩) v = true ↔
        i = bucketIdx v)) ∧
    ((buildBucketsForRows rows).1.map (fun b => b.count)).sum =
      (buildBucketsForRows rows).2 ∧
    (buildBucketsForRows rows).2 =
      (rows.filterMap
        (fun r => coercePrice (rowGet r.fields "FIN_PRICE_UNEDITED"))).length ∧
    ((buildBucketsForRows priceRowsEx).1.filter (fun b => 0 < b.count)) =
      [⟨"Under $30k", 100 / 3, 1⟩, ⟨"$30k to $34.9k", 100 / 3, 1⟩,
       ⟨"$110k+", 100 / 3, 1⟩] ∧
    toFixed1 (100 / 3) = "33.3" := by
  refine ⟨by decide, by decide, ?_, ?_, ?_, by decide, by decide⟩
  · intro i hi
    interval_cases i
    · have hr : getFixedBucketRanges.getD 0 ⟨none, none, ""⟩ =
        ⟨none, some 30000, "Under $30k"⟩ := by decide
      rw [hr]
      simp only [inPriceRange, Bool.true_and, Bool.and_true, decide_eq_true_eq]
      exact bucketIdx_under_iff v
    · have hr : getFixedBucketRanges.getD 1 ⟨none, none, ""⟩ =
        ⟨some 30000, some 35000, "$30k to $34.9k"⟩ := by decide
      rw [hr]
      simp only [inPriceRange, Bool.and_eq_true, decide_eq_true_eq]
      exact bucketIdx_mid_iff v 30000 35000 0 1 (by norm_num) (by norm_num)
        (by norm_num) (by norm_num)
    · have hr : getFixedBucketRanges.getD 2 ⟨none, none, ""⟩ =
        ⟨some 35000, some 40000, "$35k to $39.9k"⟩ := by decide
      rw [hr]
      simp only [inPriceRange, Bool.and_eq_true, decide_eq_true_eq]
      exact bucketIdx_mid_iff v 35000 40000 1 2 (by norm_num) (by norm_num)
        (by norm_num) (by norm_num)
    · have hr : getFixedBucketRanges.getD 3 ⟨none, none, ""⟩ =
        ⟨some 40000, some 45000, "$40k to $44.9k"⟩ := by decide
      rw [hr]
      simp only [inPriceRange, Bool.and_eq_true, decide_eq_true_eq]
      exact bucketIdx_mid_iff v 40000 45000 2 3 (by norm_num) (by norm_num)
        (by norm_num) (by norm_num)
    · have hr : getFixedBucketRanges.getD 4 ⟨none, none, ""⟩ =
        ⟨some 45000, some 50000, "$45k to $49.9k"⟩ := by decide
      rw [hr]
      simp only [inPriceRange, Bool.and_eq_true, decide_eq_true_eq]
      exact bucketIdx_mid_iff v 45000 50000 3 4 (by norm_num) (by norm_num)
        (by norm_num) (by norm_num)
    · have hr : getFixedBucketRanges.getD 5 ⟨none, none, ""⟩ =
        ⟨some 50000, some 55000, "$50k to $54.9k"⟩ := by decide
      rw [hr]
      simp only [inPriceRange, Bool.and_eq_true, decide_eq_true_eq]
      exact bucketIdx_mid_iff v 50000 55000 4 5 (by norm_num) (by norm_num)
        (by norm_num) (by norm_num)
    · have hr : getFixedBucketRanges.getD 6 ⟨none, none, ""⟩ =
        ⟨some 55000, some 60000, "$55k to $59.9k"⟩ := by decide
      rw [hr]
      simp only [inPriceRange, Bool.and_eq_true, decide_eq_true_eq]
      exact bucketIdx_mid_iff v 55000 60000 5 6 (by norm_num) (by norm_num)
        (by norm_num) (by norm_num)
    · have hr : getFixedBucketRanges.getD 7 ⟨none, none, ""⟩ =
        ⟨some 60000, some 65000, "$60k to $64.9k"⟩ := by decide
      rw [hr]
      simp only [inPriceRange, Bool.and_eq_true, decide_eq_true_eq]
      exact bucketIdx_mid_iff v 60000 65000 6 7 (by norm_num) (by norm_num)
        (by norm_num) (by norm_num)
    · have hr : getFixedBucketRanges.getD 8 ⟨none, none, ""⟩ =
        ⟨some 65000, some 70000, "$65k to $69.9k"⟩ := by decide
      rw [hr]
      simp only [inPriceRange, Bool.and_eq_true, decide_eq_true_eq]
      exact bucketIdx_mid_iff v 65000 70000 7 8 (by norm_num) (by norm_num)
        (by norm_num) (by norm_num)
    · have hr : getFixedBucketRanges.getD 9 ⟨none, none, ""⟩ =
        ⟨some 70000, some 75000, "$70k to $74.9k"⟩ := by decide
      rw [hr]
      simp only [inPriceRange, Bool.and_eq_true, decide_eq_true_eq]
      exact bucketIdx_mid_iff v 70000 75000 8 9 (by norm_num) (by norm_num)
        (by norm_num) (by norm_num)
    · have hr : getFixedBucketRanges.getD 10 ⟨none, none, ""⟩ =
        ⟨some 75000, some 80000, "$75k to $79.9k"⟩ := by decide
      rw [hr]
      simp only [inPriceRange, Bool.and_eq_true, decide_eq_true_eq]
      exact bucketIdx_mid_iff v 75000 80000 9 10 (by norm_num) (by norm_num)
        (by norm_num) (by norm_num)
    · have hr : getFixedBucketRanges.getD 11 ⟨none, none, ""⟩ =
        ⟨some 80000, some 85000, "$80k to $84.9k"⟩ := by decide
      rw [hr]
      simp only [inPriceRange, Bool.and_eq_true, decide_eq_true_eq]
      exact bucketIdx_mid_iff v 80000 85000 10 11 (by norm_num) (by norm_num)
        (by norm_num) (by norm_num)
    · have hr : getFixedBucketRanges.getD 12 ⟨none, none, ""⟩ =
        ⟨some 85000, some 90000, "$85k to $89.9k"⟩ := by decide
      rw [hr]
      simp only [inPriceRange, Bool.and_eq_true, decide_eq_true_eq]
      exact bucketIdx_mid_iff v 85000 90000 11 12 (by norm_num) (by norm_num)
        (by norm_num) (by norm_num)
    · have hr : getFixedBucketRanges.getD 13 ⟨none, none, ""⟩ =
        ⟨some 90000, some 95000, "$90k to $94.9k"⟩ := by decide
      rw [hr]
      simp only [inPriceRange, Bool.and_eq_true, decide_eq_true_eq]
      exact bucketIdx_mid_iff v 90000 95000 12 13 (by norm_num) (by norm_num)
        (by norm_num) (by norm_num)
    · have hr : getFixedBucketRanges.getD 14 ⟨none, none, ""⟩ =
        ⟨some 95000, some 100000, "$95k to $99.9k"⟩ := by decide
      rw [hr]
      simp only [inPriceRange, Bool.and_eq_true, decide_eq_true_eq]
      exact bucketIdx_mid_iff v 95000 100000 13 14 (by norm_num) (by norm_num)
        (by norm_num) (by norm_num)
    · have hr : getFixedBucketRanges.getD 15 ⟨none, none, ""⟩ =
        ⟨some 100000, some 105000, "$100k to $104.9k"⟩ := by decide
      rw [hr]
      simp only [inPriceRange, Bool.and_eq_true, decide_eq_true_eq]
      exact bucketIdx_mid_iff v 100000 105000 14 15 (by norm_num) (by norm_num)
        (by norm_num) (by norm_num)
    · have hr : getFixedBucketRanges.getD 16 ⟨none, none, ""⟩ =
        ⟨some 105000, some 110000, "$105k to $109.9k"⟩ := by decide
      rw [hr]
      simp only [inPriceRange, Bool.and_eq_true, decide_eq_true_eq]
      exact bucketIdx_mid_iff v 105000 110000 15 16 (by norm_num) (by norm_num)
        (by norm_num) (by norm_num)
    · have hr : getFixedBucketRanges.getD 17 ⟨none, none, ""⟩ =
        ⟨some 110000, none, "$110k+"⟩ := by decide
      rw [hr]
      simp only [inPriceRange, Bool.true_and, Bool.and_true, decide_eq_true_eq]
      exact bucketIdx_over_iff v
  · simp only [buildBucketsForRows]
    split_ifs with hz
    · simp
    · simp only [List.map_map]
      have hcomp : ((fun b : BucketOut => b.count) ∘ (fun p : ℕ × PriceRange =>
          (⟨p.2.label,
            (((rows.filterMap (fun r => coercePrice (rowGet r.fields "FIN_PRICE_UNEDITED"))).filter
              (fun v => bucketIdx v = p.1)).length : ℚ) /
              ((rows.filterMap (fun r => coercePrice (rowGet r.fields "FIN_PRICE_UNEDITED"))).length : ℚ) * 100,
            ((rows.filterMap (fun r => coercePrice (rowGet r.fields "FIN_PRICE_UNEDITED"))).filter
              (fun v => bucketIdx v = p.1)).length⟩ : BucketOut))) =
          (fun p : ℕ × PriceRange =>
            ((rows.filterMap (fun r => coercePrice (rowGet r.fields "FIN_PRICE_UNEDITED"))).filter
              (fun v => bucketIdx v = p.1)).length) := rfl
      rw [hcomp]
      have hfst : (getFixedBucketRanges.enum.map (fun p : ℕ × PriceRange =>
          ((rows.filterMap (fun r => coercePrice (rowGet r.fields "FIN_PRICE_UNEDITED"))).filter
            (fun v => bucketIdx v = p.1)).length)) =
          ((getFixedBucketRanges.enum.map Prod.fst).map (fun i : ℕ =>
          ((rows.filterMap (fun r => coercePrice (rowGet r.fields "FIN_PRICE_UNEDITED"))).filter
            (fun v => bucketIdx v = i)).length)) := by
        rw [List.map_map]
        rfl
      rw [hfst, List.enum_map_fst]
      have hlen : getFixedBucketRanges.length = 18 := by decide
      rw [hlen, sum_filter_bucketIdx]
  · simp only [buildBucketsForRows]
    split_ifs with hz
    · omega
    · rfl


/-!  ## §4.6–4.7 Code Resolver and Categorical Summarizer
(source lines 1179–1238 of `part_001`, with the same loop at
`src/src/App.js` 527–599). -/

/-- A code table for one field (a JS `Map` whose keys were inserted as the
raw `START` value, its string form and its numeric form). -/
abbrev CodeMap := List (JsVal × String)

/-- The label-resolution chain of the categorical summarizer: exact raw
key, string form, numeric form, then the trimmed label re-parsed as a
number (tried as number key and as its string form; a non-finite re-parse
looks up the string "NaN", the string form JS gives a non-finite number). -/
def resolveLabelDemo (codeMap : CodeMap) (rawVal : JsVal) : String :=
  let label := trimStr (jsStr rawVal)
  match codeMap.lookup rawVal with
  | some l => l
  | none =>
      match codeMap.lookup (.str (jsStr rawVal)) with
      | some l => l
      | none =>
          match (jsNumber rawVal).bind (fun q => codeMap.lookup (.num q)) with
          | some l => l
          | none =>
              match jsParseNumber label with
              | some q =>
                  match codeMap.lookup (.num q) with
                  | some l => l
                  | none =>
                      match codeMap.lookup (.str (ratToString q)) with
                      | some l => l
                      | none => label
              | none =>
                  match codeMap.lookup (.str "NaN") with
                  | some l => l
                  | none => label

/-- The missing test of the summarizer:
`rawVal === undefined || rawVal === null || String(rawVal).trim() === ""`. -/
def isMissingVal (v : Option JsVal) : Bool :=
  match v with
  | none => true
  | some .null => true
  | some w => trimStr (jsStr w) == ""

/-- One bucket row of a categorical section (`{label, count, pct}`). -/
structure CatItem where
  label : String
  count : ℕ
  pct : ℚ
deriving DecidableEq, Repr

/-- A categorical `SummarySection` (`{items, total}`). -/
structure CatSection where
  items : List CatItem
  total : ℕ
deriving DecidableEq, Repr

/-- The counting loop body of the summarizer: missing values bump the
missing count, present values bump the resolved label's count and the
valid count.  Accumulator: (label counts, validCount, missingCount). -/
def catCountStep (field : String) (codeMap : CodeMap)
    (acc : List (String × ℕ) × ℕ × ℕ) (r : Rec) :
    List (String × ℕ) × ℕ × ℕ :=
  match rowGet r.fields field with
  | none => (acc.1, acc.2.1, acc.2.2 + 1)
  | some w =>
      if w = JsVal.null ∨ trimStr (jsStr w) = "" then
        (acc.1, acc.2.1, acc.2.2 + 1)
      else
        (bumpCount (resolveLabelDemo codeMap w) acc.1, acc.2.1 + 1, acc.2.2)

/-- Stable insertion for descending count order (ties keep original
order, as JS `Array.prototype.sort` is stable). -/
def insertByCountDesc (x : CatItem) : List CatItem → List CatItem
  | [] => [x]
  | y :: ys => if x.count < y.count then y :: insertByCountDesc x ys else x :: y :: ys

/-- `items.sort((a, b) => b.count - a.count)` — stable descending sort. -/
def sortByCountDesc : List CatItem → List CatItem
  | [] => []
  | x :: xs => insertByCountDesc x (sortByCountDesc xs)

/-- `items[items.length - 1].pct += diff`. -/
def adjustLastPct (d : ℚ) : List CatItem → List CatItem
  | [] => []
  | [x] => [{ x with pct := x.pct + d }]
  | x :: y :: xs => x :: adjustLastPct d (y :: xs)

/-- The rounding correction of the summarizer: when the absolute drift of
the percentage sum from 100 exceeds 0.1 (and there is a bucket), add the
residual `100 - sum` to the last bucket. -/
def applyRoundingCorrection (items : List CatItem) : List CatItem :=
  let sumPct : ℚ := (items.map (fun it => it.pct)).sum
  if 1 / 10 < |sumPct - 100| ∧ items ≠ [] then
    adjustLastPct (100 - sumPct) items
  else items

/-- The per-field categorical branch of `demoSummary`: count missing and
resolved-label occurrences over the scope, emit no section when the field
has zero observations, compute `pct = count / fieldTotal * 100` with
`fieldTotal = validCount + missingCount`, sort present buckets by
descending count, append the synthetic "Unknown" bucket when missing > 0,
and add the rounding residual to the last bucket when the drift exceeds
0.1. -/
def categoricalSection (field : String) (codeMap : CodeMap)
    (rows : List Rec) : Option CatSection :=
  let fold := rows.foldl (catCountStep field codeMap) ([], 0, 0)
  let counts := fold.1
  let validCount := fold.2.1
  let missingCount := fold.2.2
  if validCount + missingCount = 0 then none
  else
    let fieldTotal := validCount + missingCount
    let sorted := sortByCountDesc (counts.map (fun p =>
      ⟨p.1, p.2, (p.2 : ℚ) / (fieldTotal : ℚ) * 100⟩))
    let items : List CatItem := sorted ++ (if 0 < missingCount then
      [⟨"Unknown", missingCount, (missingCount : ℚ) / (fieldTotal : ℚ) * 100⟩]
      else [])
    some ⟨applyRoundingCorrection items, fieldTotal⟩

/-- Spec-level missing count of a field over a scope. -/
def missingCountOf (field : String) (rows : List Rec) : ℕ :=
  (rows.filter (fun r => isMissingVal (rowGet r.fields field))).length

/-- Spec-level valid count of a field over a scope. -/
def validCountOf (field : String) (rows : List Rec) : ℕ :=
  (rows.filter (fun r => !isMissingVal (rowGet r.fields field))).length

/-- Helper: the counting step as an if on the missing test. -/
theorem catCountStep_eq (field : String) (codeMap : CodeMap)
    (acc : List (String × ℕ) × ℕ × ℕ) (r : Rec) :
    catCountStep field codeMap acc r =
      if isMissingVal (rowGet r.fields field) then (acc.1, acc.2.1, acc.2.2 + 1)
      else
        match rowGet r.fields field with
        | some w => (bumpCount (resolveLabelDemo codeMap w) acc.1, acc.2.1 + 1, acc.2.2)
        | none => (acc.1, acc.2.1, acc.2.2 + 1) := by
  unfold catCountStep isMissingVal
  cases hv : rowGet r.fields field with
  | none => simp
  | some w =>
      cases w with
      | null => simp
      | str s => by_cases h : trimStr (jsStr (JsVal.str s)) = "" <;> simp [h]
      | num q => by_cases h : trimStr (jsStr (JsVal.num q)) = "" <;> simp [h]

/-- Helper: the summarizer's fold computes the valid count, the missing
count, and puts exactly the valid observations into the label counts. -/
theorem cat_fold (field : String) (codeMap : CodeMap) (rows : List Rec)
    (acc : List (String × ℕ) × ℕ × ℕ) :
    (rows.foldl (catCountStep field codeMap) acc).2.1 =
      acc.2.1 + validCountOf field rows ∧
    (rows.foldl (catCountStep field codeMap) acc).2.2 =
      acc.2.2 + missingCountOf field rows ∧
    ((rows.foldl (catCountStep field codeMap) acc).1.map (fun p => p.2)).sum =
      (acc.1.map (fun p => p.2)).sum + validCountOf field rows := by
  induction rows generalizing acc with
  | nil => simp [validCountOf, missingCountOf]
  | cons r rest ih =>
      simp only [List.foldl_cons, catCountStep_eq]
      by_cases hm : isMissingVal (rowGet r.fields field) = true
      · rw [if_pos hm]
        have h := ih (acc.1, acc.2.1, acc.2.2 + 1)
        refine ⟨?_, ?_, ?_⟩
        · rw [h.1]; simp [validCountOf, List.filter_cons, hm]
        · rw [h.2.1]; simp [missingCountOf, List.filter_cons, hm]; omega
        · rw [h.2.2]; simp [validCountOf, List.filter_cons, hm]
      · rw [if_neg hm]
        cases hv : rowGet r.fields field with
        | none => rw [hv] at hm; simp [isMissingVal] at hm
        | some w =>
            simp only [hv]
            have h := ih (bumpCount (resolveLabelDemo codeMap w) acc.1, acc.2.1 + 1, acc.2.2)
            rw [Bool.not_eq_true] at hm
            refine ⟨?_, ?_, ?_⟩
            · rw [h.1]; simp [validCountOf, List.filter_cons, hm]; omega
            · rw [h.2.1]; simp [missingCountOf, List.filter_cons, hm]
            · rw [h.2.2, bumpCount_sum]
              simp [validCountOf, List.filter_cons, hm]; omega

/-- The descending-count order of the categorical sort. -/
def catGe (a b : CatItem) : Prop := b.count ≤ a.count

/-- Helper: stable insertion produces a permutation. -/
theorem insertByCountDesc_perm (x : CatItem) (l : List CatItem) :
    List.Perm (insertByCountDesc x l) (x :: l) := by
  induction l with
  | nil => exact List.Perm.refl _
  | cons y ys ih =>
      unfold insertByCountDesc
      by_cases h : x.count < y.count
      · rw [if_pos h]
        exact (ih.cons y).trans (List.Perm.swap x y ys)
      · rw [if_neg h]

/-- Helper: the categorical sort is a permutation. -/
theorem sortByCountDesc_perm (l : List CatItem) :
    List.Perm (sortByCountDesc l) l := by
  induction l with
  | nil => exact List.Perm.refl _
  | cons x xs ih =>
      exact (insertByCountDesc_perm x (sortByCountDesc xs)).trans (ih.cons x)

/-- Helper: stable insertion preserves descending sortedness. -/
theorem insertByCountDesc_pairwise (x : CatItem) (l : List CatItem)
    (h : l.Pairwise catGe) : (insertByCountDesc x l).Pairwise catGe := by
  induction l with
  | nil => simp [insertByCountDesc, List.pairwise_cons]
  | cons y ys ih =>
      rcases List.pairwise_cons.mp h with ⟨hy, hys⟩
      unfold insertByCountDesc
      by_cases hxy : x.count < y.count
      · rw [if_pos hxy]
        refine List.pairwise_cons.mpr ⟨?_, ih hys⟩
        intro z hz
        have hz2 := (insertByCountDesc_perm x ys).mem_iff.mp hz
        rcases List.mem_cons.mp hz2 with rfl | hzy
        · exact le_of_lt hxy
        · exact hy z hzy
      · rw [if_neg hxy]
        push_neg at hxy
        refine List.pairwise_cons.mpr ⟨?_, h⟩
        intro z hz
        rcases List.mem_cons.mp hz with rfl | hzy
        · exact hxy
        · exact le_trans (hy z hzy) hxy

/-- Helper: the categorical sort is descending by count. -/
theorem sortByCountDesc_pairwise (l : List CatItem) :
    (sortByCountDesc l).Pairwise catGe := by
  induction l with
  | nil => simp [sortByCountDesc]
  | cons x xs ih => exact insertByCountDesc_pairwise x _ ih

/-- The sorted present buckets of a section, with `pct = count/total*100`. -/
def presentItems (field : String) (codeMap : CodeMap) (rows : List Rec) :
    List CatItem :=
  sortByCountDesc (((rows.foldl (catCountStep field codeMap) ([], 0, 0)).1).map
    (fun p => ⟨p.1, p.2,
      (p.2 : ℚ) / ((validCountOf field rows + missingCountOf field rows : ℕ) : ℚ) * 100⟩))

/-- The synthetic "Unknown" bucket, appended exactly when missing > 0. -/
def unknownTail (field : String) (rows : List Rec) : List CatItem :=
  if 0 < missingCountOf field rows then
    [⟨"Unknown", missingCountOf field rows,
      ((missingCountOf field rows : ℕ) : ℚ) /
        ((validCountOf field rows + missingCountOf field rows : ℕ) : ℚ) * 100⟩]
  else []

/-- Helper: percentage sum over the mapped present buckets. -/
theorem map_pct_mk_sum (l : List (String × ℕ)) (t : ℚ) :
    ((l.map (fun p => (⟨p.1, p.2, (p.2 : ℚ) / t * 100⟩ : CatItem))).map
      (fun it => it.pct)).sum = (((l.map (fun p => p.2)).sum : ℕ) : ℚ) / t * 100 := by
  induction l with
  | nil => simp
  | cons p ps ih =>
      simp only [List.map_cons, List.sum_cons, ih]
      push_cast
      ring

/-- Helper: before the rounding correction the percentages already sum to
exactly 100 (in exact arithmetic). -/
theorem preItems_sum (field : String) (codeMap : CodeMap) (rows : List Rec)
    (h0 : ¬ validCountOf field rows + missingCountOf field rows = 0) :
    (((presentItems field codeMap rows ++ unknownTail field rows).map
      (fun it => it.pct)).sum) = 100 := by
  have hf := cat_fold field codeMap rows ([], 0, 0)
  have hs : (((rows.foldl (catCountStep field codeMap) ([], 0, 0)).1).map
      (fun p => p.2)).sum = validCountOf field rows := by simpa using hf.2.2
  rw [List.map_append, List.sum_append]
  have hpres : ((presentItems field codeMap rows).map (fun it => it.pct)).sum =
      ((validCountOf field rows : ℕ) : ℚ) /
        ((validCountOf field rows + missingCountOf field rows : ℕ) : ℚ) * 100 := by
    unfold presentItems
    rw [List.Perm.sum_eq (List.Perm.map _ (sortByCountDesc_perm _)),
      map_pct_mk_sum, hs]
  rw [hpres]
  have hTne : ((validCountOf field rows + missingCountOf field rows : ℕ) : ℚ) ≠ 0 :=
    Nat.cast_ne_zero.mpr h0
  rcases Nat.eq_zero_or_pos (missingCountOf field rows) with hmz | hmp
  · unfold unknownTail
    rw [if_neg (by omega)]
    simp only [List.map_nil, List.sum_nil, add_zero]
    rw [hmz, Nat.add_zero] at hTne ⊢
    field_simp
  · unfold unknownTail
    rw [if_pos hmp]
    simp only [List.map_cons, List.map_nil, List.sum_cons, List.sum_nil, add_zero]
    field_simp
    push_cast
    ring

/-- Helper: when the drift is zero the rounding correction is a no-op. -/
theorem correction_noop (items : List CatItem)
    (h : (items.map (fun it => it.pct)).sum = 100) :
    applyRoundingCorrection items = items := by
  unfold applyRoundingCorrection
  rw [h]
  norm_num

/-- Helper: the categorical section in closed form — the sorted present
buckets, then the "Unknown" bucket exactly when missing > 0, with the
rounding correction provably a no-op in exact arithmetic. -/
theorem catSection_char (field : String) (codeMap : CodeMap) (rows : List Rec) :
    categoricalSection field codeMap rows =
      if validCountOf field rows + missingCountOf field rows = 0 then none
      else some ⟨presentItems field codeMap rows ++ unknownTail field rows,
        validCountOf field rows + missingCountOf field rows⟩ := by
  have hf := cat_fold field codeMap rows ([], 0, 0)
  have hv : (rows.foldl (catCountStep field codeMap) ([], 0, 0)).2.1 =
      validCountOf field rows := by simpa using hf.1
  have hm : (rows.foldl (catCountStep field codeMap) ([], 0, 0)).2.2 =
      missingCountOf field rows := by simpa using hf.2.1
  simp only [categoricalSection]
  rw [hv, hm]
  by_cases h0 : validCountOf field rows + missingCountOf field rows = 0
  · rw [if_pos h0, if_pos h0]
  · rw [if_neg h0, if_neg h0]
    have hsum := preItems_sum field codeMap rows h0
    have hc := correction_noop
      (presentItems field codeMap rows ++ unknownTail field rows) hsum
    exact congrArg some (congrArg
      (fun l => CatSection.mk l
        (validCountOf field rows + missingCountOf field rows)) hc)

/-- The example scope of the claim: one field "F" with values
`["A", "A", "B", null]` and no code mapping. -/
def catRowsEx : List Rec :=
  [⟨"M", 0, 0, 0, 0, 0, [("F", JsVal.str "A")]⟩,
   ⟨"M", 0, 0, 0, 0, 0, [("F", JsVal.str "A")]⟩,
   ⟨"M", 0, 0, 0, 0, 0, [("F", JsVal.str "B")]⟩,
   ⟨"M", 0, 0, 0, 0, 0, [("F", JsVal.null)]⟩]

/-- C1: the categorical summary computes each bucket's percentage as
`count / (validCount + missingCount) * 100`, appends the synthetic
"Unknown" bucket exactly when missing > 0 and places it last with the
present buckets sorted by descending count before it, produces no section
when `validCount + missingCount = 0`, and on `["A","A","B",null]` with no
code mapping yields `[A: 2 (50%), B: 1 (25%), Unknown: 1 (25%)]`. -/
theorem cat_summary_ok (field : String) (codeMap : CodeMap) (rows : List Rec) :
    (validCountOf field rows + missingCountOf field rows = 0 →
      categoricalSection field codeMap rows = none) ∧
    (∀ sec : CatSection, categoricalSection field codeMap rows = some sec →
      sec.total = validCountOf field rows + missingCountOf field rows ∧
      (∀ it ∈ sec.items, it.pct =
        (it.count : ℚ) /
          ((validCountOf field rows + missingCountOf field rows : ℕ) : ℚ) * 100) ∧
      (0 < missingCountOf field rows →
        sec.items.getLast? = some ⟨"Unknown", missingCountOf field rows,
          ((missingCountOf field rows : ℕ) : ℚ) /
            ((validCountOf field rows + missingCountOf field rows : ℕ) : ℚ) * 100⟩ ∧
        sec.items.dropLast.Pairwise catGe ∧
        (sec.items.dropLast.map (fun it => it.count)).sum = validCountOf field rows) ∧
      (missingCountOf field rows = 0 →
        sec.items.Pairwise catGe ∧
        (sec.items.map (fun it => it.count)).sum = validCountOf field rows)) ∧
    categoricalSection "F" [] catRowsEx =
      some ⟨[⟨"A", 2, 50⟩, ⟨"B", 1, 25⟩, ⟨"Unknown", 1, 25⟩], 4⟩ := by
  have hf := cat_fold field codeMap rows ([], 0, 0)
  have hs : (((rows.foldl (catCountStep field codeMap) ([], 0, 0)).1).map
      (fun p => p.2)).sum = validCountOf field rows := by simpa using hf.2.2
  have hcnt : ((presentItems field codeMap rows).map (fun it => it.count)).sum =
      validCountOf field rows := by
    unfold presentItems
    rw [List.Perm.sum_eq (List.Perm.map _ (sortByCountDesc_perm _)), List.map_map]
    exact hs
  refine ⟨?_, ?_, by decide⟩
  · intro h0
    rw [catSection_char, if_pos h0]
  · intro sec hsec
    rw [catSection_char] at hsec
    by_cases h0 : validCountOf field rows + missingCountOf field rows = 0
    · rw [if_pos h0] at hsec
      exact absurd hsec (by simp)
    · rw [if_neg h0, Option.some_inj] at hsec
      subst hsec
      refine ⟨rfl, ?_, ?_, ?_⟩
      · intro it hit
        rcases List.mem_append.mp hit with hp | ht
        · have hp2 := (sortByCountDesc_perm _).mem_iff.mp hp
          rcases List.mem_map.mp hp2 with ⟨p, _, rfl⟩
          rfl
        · unfold unknownTail at ht
          rcases Nat.eq_zero_or_pos (missingCountOf field rows) with hmz | hmp
          · rw [if_neg (by omega)] at ht
            exact absurd ht (List.not_mem_nil it)
          · rw [if_pos hmp] at ht
            rcases List.mem_singleton.mp ht with rfl
            rfl
      · intro hmp
        unfold unknownTail
        rw [if_pos hmp]
        refine ⟨List.getLast?_concat _, ?_, ?_⟩
        · rw [List.dropLast_concat]
          exact sortByCountDesc_pairwise _
        · rw [List.dropLast_concat]
          exact hcnt
      · intro hmz
        unfold unknownTail
        rw [if_neg (by omega), List.append_nil]
        exact ⟨sortByCountDesc_pairwise _, hcnt⟩

/-- Witness for C1: the percentage formula instantiated at the "A" bucket
of the example (`50 = 2 / 4 * 100`), with the example section itself. -/
theorem cat_summary_ok_witness :
    ((50 : ℚ) = ((2 : ℕ) : ℚ) / ((4 : ℕ) : ℚ) * 100) ∧
    categoricalSection "F" [] catRowsEx =
      some ⟨[⟨"A", 2, 50⟩, ⟨"B", 1, 25⟩, ⟨"Unknown", 1, 25⟩], 4⟩ := by
  have h := cat_summary_ok "F" [] catRowsEx
  have hsec := h.2.2
  refine ⟨?_, hsec⟩
  have h2 := (h.2.1 _ hsec).2.1 ⟨"A", 2, 50⟩ (by simp)
  rw [show validCountOf "F" catRowsEx + missingCountOf "F" catRowsEx = 4 from by decide] at h2
  exact h2

/-- A one-row scope for the C5 witness. -/
def catRowsEx5 : List Rec := [⟨"M", 0, 0, 0, 0, 0, [("G", JsVal.str "A")]⟩]

/-- C5: whenever a field produces a categorical section, the sum of its
percentages (after the rounding correction, a provable no-op in exact
arithmetic since the uncorrected sum is exactly 100) is within 0.001 of
100. -/
theorem cat_pct_sum_near_100 (field : String) (codeMap : CodeMap)
    (rows : List Rec) (sec : CatSection)
    (h : categoricalSection field codeMap rows = some sec) :
    |(sec.items.map (fun it => it.pct)).sum - 100| ≤ 1 / 1000 := by
  rw [catSection_char] at h
  by_cases h0 : validCountOf field rows + missingCountOf field rows = 0
  · rw [if_pos h0] at h
    exact absurd h (by simp)
  · rw [if_neg h0, Option.some_inj] at h
    subst h
    have hsum := preItems_sum field codeMap rows h0
    simp only [hsum]
    norm_num

set_option maxHeartbeats 1000000 in
/-- Witness for C5 at a concrete one-row scope. -/
theorem cat_pct_sum_near_100_witness :
    |(([⟨"A", 1, 100⟩] : List CatItem).map (fun it => it.pct)).sum - 100| ≤ 1 / 1000 := by
  have hsec : categoricalSection "G" [] catRowsEx5 =
      some ⟨[⟨"A", 1, 100⟩], 1⟩ := by decide
  exact cat_pct_sum_near_100 "G" [] catRowsEx5 ⟨[⟨"A", 1, 100⟩], 1⟩ hsec

/-!  ## §4.10 Agreement Scorer aggregation and attitude points
(source lines 604–655, 733–755 and 988–1030 of `part_001`). -/

/-- A field value that passes
`v !== undefined && v !== null && String(v).trim() !== ""`. -/
def presentFieldVal (row : Row) (key : String) : Option JsVal :=
  match rowGet row key with
  | none => none
  | some v =>
      if v = JsVal.null then none
      else if trimStr (jsStr v) = "" then none
      else some v

/-- Source `getAttRaw(row, varName)`: the field as-is, then the common
alias suffixes `_LABEL`, `_TXT`, `_TEXT`, `_DESC`, `_LAB`. -/
def getAttRaw (row : Row) (varName : String) : Option JsVal :=
  match presentFieldVal row varName with
  | some v => some v
  | none =>
      match presentFieldVal row (varName ++ "_LABEL") with
      | some v => some v
      | none =>
          match presentFieldVal row (varName ++ "_TXT") with
          | some v => some v
          | none =>
              match presentFieldVal row (varName ++ "_TEXT") with
              | some v => some v
              | none =>
                  match presentFieldVal row (varName ++ "_DESC") with
                  | some v => some v
                  | none => presentFieldVal row (varName ++ "_LAB")

/-- Source `resolveMappedLabel(row, varName, demoLookups)`: direct map
lookups (as-is, string form, numeric form and its string form when
finite), falling back to the raw value's string form as the label. -/
def resolveMappedLabel (row : Row) (varName : String)
    (demoLookups : String → CodeMap) : Option String :=
  match getAttRaw row varName with
  | none => none
  | some raw =>
      let codeMap := demoLookups varName
      match codeMap.lookup raw with
      | some l => some l
      | none =>
          match codeMap.lookup (.str (jsStr raw)) with
          | some l => some l
          | none =>
              match jsParseNumber (jsStr raw) with
              | some q =>
                  match codeMap.lookup (.num q) with
                  | some l => some l
                  | none =>
                      match codeMap.lookup (.str (ratToString q)) with
                      | some l => some l
                      | none => some (jsStr raw)
              | none => some (jsStr raw)

/-- The loop body of `percentAgreeMappedPolicy`: an unresolved (or falsy,
i.e. empty) label counts as missing, otherwise the row is valid and
counts as agree when the policy accepts the label.  Accumulator:
(agree, valid, missing). -/
def pampStep (varName : String) (demoLookups : String → CodeMap)
    (policy : AgreePolicy) (acc : ℕ × ℕ × ℕ) (r : Row) : ℕ × ℕ × ℕ :=
  match resolveMappedLabel r varName demoLookups with
  | none => (acc.1, acc.2.1, acc.2.2 + 1)
  | some lab =>
      if lab = "" then (acc.1, acc.2.1, acc.2.2 + 1)
      else ((if isTopNAgree lab policy then acc.1 + 1 else acc.1),
        acc.2.1 + 1, acc.2.2)

/-- Source `percentAgreeMappedPolicy(rows, varName, demoLookups, opts)`:
percent agree via mapped labels under the per-variable policy; the
denominator includes missing responses when `includeMissingInDenom`
(the attitude chart passes `true`); a zero denominator yields NaN,
modelled as `none`. -/
def percentAgreeMappedPolicy (rows : List Row) (varName : String)
    (demoLookups : String → CodeMap) (includeMissingInDenom : Bool) :
    Option ℚ :=
  let policy := agreePolicyFor varName
  let f := rows.foldl (pampStep varName demoLookups policy) (0, 0, 0)
  let agree := f.1
  let valid := f.2.1
  let missing := f.2.2
  let denom := if includeMissingInDenom then valid + missing else valid
  if 0 < denom then some ((agree : ℚ) / (denom : ℚ) * 100) else none

/-- Source `COLORS` palette. -/
def COLORS : List String :=
  ["#1F77B4", "#FF7F0E", "#2CA02C", "#D62728", "#9467BD", "#8C564B",
   "#E377C2", "#7F7F7F", "#BCBD22", "#17BECF", "#F97316", "#14B8A6",
   "#A855F7", "#22C55E", "#3B82F6"]

/-- `String(key)` on a group key. -/
def gkeyStr : GKey → String
  | .cluster c => ratToString c
  | .model m => m

/-- Source `colorForKey(key, allKeys)`: position of the key's string form
in the key list, modulo the palette size; unknown keys fall back to
index 0. -/
def colorForKey (key : GKey) (allKeys : List GKey) : String :=
  let idx := match allKeys.findIdx? (fun k => gkeyStr k == gkeyStr key) with
    | some i => i
    | none => 0
  COLORS.getD (idx % COLORS.length) ""

/-- An attitude-comparison point. -/
structure AttPoint where
  key : GKey
  name : String
  x : ℚ
  y : ℚ
  n : ℕ
  color : String
deriving DecidableEq, Repr

/-- Source `attitudesPoints`: group the (optionally model-narrowed) scope
by group key in the scatter's key order, compute policy-based percent
agree for both selected variables with missing included in the
denominator, and drop any group for which either percentage is not
finite. -/
def attPointForKey (srcRows : List Rec) (clusterMode : Bool)
    (attXVar attYVar : String) (demoLookups : String → CodeMap)
    (order : List GKey) (k : GKey) : Option AttPoint :=
  let grp := srcRows.filter (fun r => groupKeyOf clusterMode r = k)
  match percentAgreeMappedPolicy (grp.map (fun r => r.fields))
      attXVar demoLookups true,
    percentAgreeMappedPolicy (grp.map (fun r => r.fields))
      attYVar demoLookups true with
  | some xv, some yv =>
      some ⟨k, (if clusterMode then "C" ++ gkeyStr k else gkeyStr k),
        xv, yv, grp.length, colorForKey k order⟩
  | _, _ => none

def attitudesPoints (scopeRows : List Rec) (clusterMode : Bool)
    (demoModel : Option String) (attXVar attYVar : String)
    (demoLookups : String → CodeMap) (order : List GKey) : List AttPoint :=
  let srcRows : List Rec := match demoModel with
    | some m => scopeRows.filter (fun r => r.model = m)
    | none => scopeRows
  order.filterMap (attPointForKey srcRows clusterMode attXVar attYVar demoLookups order)

/-- Helper: the scorer's fold keeps `agree ≤ valid` and counts every row
as valid or missing. -/
theorem pamp_fold (varName : String) (demoLookups : String → CodeMap)
    (policy : AgreePolicy) (rows : List Row) (acc : ℕ × ℕ × ℕ) :
    acc.1 ≤ (rows.foldl (pampStep varName demoLookups policy) acc).1 ∧
    (rows.foldl (pampStep varName demoLookups policy) acc).1 - acc.1 ≤
      (rows.foldl (pampStep varName demoLookups policy) acc).2.1 - acc.2.1 ∧
    acc.2.1 ≤ (rows.foldl (pampStep varName demoLookups policy) acc).2.1 ∧
    (rows.foldl (pampStep varName demoLookups policy) acc).2.1 +
      (rows.foldl (pampStep varName demoLookups policy) acc).2.2 =
      acc.2.1 + acc.2.2 + rows.length := by
  induction rows generalizing acc with
  | nil => simp
  | cons r rest ih =>
      simp only [List.foldl_cons, List.length_cons]
      have hstep : ∃ da dv dm : ℕ, da ≤ dv ∧ dv + dm = 1 ∧
          pampStep varName demoLookups policy acc r =
            (acc.1 + da, acc.2.1 + dv, acc.2.2 + dm) := by
        unfold pampStep
        rcases resolveMappedLabel r varName demoLookups with _ | lab
        · exact ⟨0, 0, 1, by omega, by omega, rfl⟩
        · by_cases he : lab = ""
          · refine ⟨0, 0, 1, by omega, by omega, ?_⟩
            simp [he]
          · by_cases ha : isTopNAgree lab policy = true
            · refine ⟨1, 1, 0, by omega, by omega, ?_⟩
              simp [he, ha]
            · refine ⟨0, 1, 0, by omega, by omega, ?_⟩
              simp [he, ha]
      obtain ⟨da, dv, dm, hadv, hsum1, hstep⟩ := hstep
      rw [hstep]
      have h := ih (acc.1 + da, acc.2.1 + dv, acc.2.2 + dm)
      simp only at h
      omega

/-- Helper: a defined percent-agree value lies in [0, 100]. -/
theorem pamp_range (rows : List Row) (varName : String)
    (demoLookups : String → CodeMap) (inc : Bool) (q : ℚ)
    (hq : percentAgreeMappedPolicy rows varName demoLookups inc = some q) :
    0 ≤ q ∧ q ≤ 100 := by
  have h := pamp_fold varName demoLookups (agreePolicyFor varName) rows (0, 0, 0)
  simp only [percentAgreeMappedPolicy] at hq
  set F := rows.foldl (pampStep varName demoLookups (agreePolicyFor varName))
    (0, 0, 0) with hF
  set denom : ℕ := if inc then F.2.1 + F.2.2 else F.2.1 with hdenom
  by_cases hd : 0 < denom
  · rw [if_pos hd, Option.some_inj] at hq
    have hav : F.1 ≤ F.2.1 := by
      have := h.2.1
      omega
    have had : F.1 ≤ denom := by
      rw [hdenom]
      split_ifs <;> omega
    have hdq : (0 : ℚ) < (denom : ℚ) := by exact_mod_cast hd
    have hadq : (F.1 : ℚ) ≤ (denom : ℚ) := by exact_mod_cast had
    constructor
    · rw [← hq]
      positivity
    · rw [← hq]
      calc (F.1 : ℚ) / (denom : ℚ) * 100 ≤ 1 * 100 := by
            apply mul_le_mul_of_nonneg_right _ (by norm_num)
            exact (div_le_one hdq).mpr hadq
        _ = 100 := one_mul 100
  · rw [if_neg hd] at hq
    exact absurd hq (by simp)

/-- Helper: a point emitted for a key has both coordinates defined and in
range. -/
theorem attPointForKey_range (srcRows : List Rec) (clusterMode : Bool)
    (attXVar attYVar : String) (demoLookups : String → CodeMap)
    (order : List GKey) (k : GKey) (pt : AttPoint)
    (h : attPointForKey srcRows clusterMode attXVar attYVar demoLookups order k =
      some pt) :
    0 ≤ pt.x ∧ pt.x ≤ 100 ∧ 0 ≤ pt.y ∧ pt.y ≤ 100 := by
  simp only [attPointForKey] at h
  rcases hx : percentAgreeMappedPolicy
      ((srcRows.filter (fun r => groupKeyOf clusterMode r = k)).map
        (fun r => r.fields)) attXVar demoLookups true with _ | xv
  · rw [hx] at h
    rcases hy : percentAgreeMappedPolicy
        ((srcRows.filter (fun r => groupKeyOf clusterMode r = k)).map
          (fun r => r.fields)) attYVar demoLookups true with _ | yv
    · rw [hy] at h; exact absurd h (by simp)
    · rw [hy] at h; exact absurd h (by simp)
  · rw [hx] at h
    rcases hy : percentAgreeMappedPolicy
        ((srcRows.filter (fun r => groupKeyOf clusterMode r = k)).map
          (fun r => r.fields)) attYVar demoLookups true with _ | yv
    · rw [hy] at h; exact absurd h (by simp)
    · rw [hy, Option.some_inj] at h
      subst h
      have hxr := pamp_range _ attXVar demoLookups true xv hx
      have hyr := pamp_range _ attYVar demoLookups true yv hy
      exact ⟨hxr.1, hxr.2, hyr.1, hyr.2⟩

/-- C10: the per-group percent-agree is `none` (NaN) exactly when the
denominator is zero — with missing included in the denominator that means
an empty group — and otherwise lies in [0, 100]; consequently every
emitted attitude-comparison point has both coordinates in [0, 100]. -/
theorem percent_agree_and_points_in_range (rows : List Row) (varName : String)
    (demoLookups : String → CodeMap) (inc : Bool) (scopeRows : List Rec)
    (clusterMode : Bool) (demoModel : Option String)
    (attXVar attYVar : String) (order : List GKey) :
    (∀ q : ℚ, percentAgreeMappedPolicy rows varName demoLookups inc = some q →
      0 ≤ q ∧ q ≤ 100) ∧
    (percentAgreeMappedPolicy rows varName demoLookups true = none ↔ rows = []) ∧
    (∀ pt ∈ attitudesPoints scopeRows clusterMode demoModel attXVar attYVar
        demoLookups order,
      0 ≤ pt.x ∧ pt.x ≤ 100 ∧ 0 ≤ pt.y ∧ pt.y ≤ 100) := by
  refine ⟨fun q hq => pamp_range rows varName demoLookups inc q hq, ?_, ?_⟩
  · have h := pamp_fold varName demoLookups (agreePolicyFor varName) rows (0, 0, 0)
    simp only [percentAgreeMappedPolicy, if_pos] at *
    constructor
    · intro hn
      by_cases hd : 0 < (rows.foldl (pampStep varName demoLookups
          (agreePolicyFor varName)) (0, 0, 0)).2.1 +
          (rows.foldl (pampStep varName demoLookups
            (agreePolicyFor varName)) (0, 0, 0)).2.2
      · rw [if_pos hd] at hn
        exact absurd hn (by simp)
      · have hlen : rows.length = 0 := by omega
        exact List.length_eq_zero.mp hlen
    · intro hr
      subst hr
      simp
  · intro pt hpt
    simp only [attitudesPoints] at hpt
    obtain ⟨k, _, hfk⟩ := List.mem_filterMap.mp hpt
    exact attPointForKey_range _ clusterMode attXVar attYVar demoLookups order k pt hfk

/-- Witness for C10: a one-record scope whose single group scores 100 on
both axes. -/
theorem percent_agree_and_points_in_range_witness :
    ((0 : ℚ) ≤ 100 ∧ (100 : ℚ) ≤ 100) ∧
    (percentAgreeMappedPolicy [] "PV_VALUE" (fun _ => []) true = none ↔
      ([] : List Row) = []) := by
  have h := percent_agree_and_points_in_range
    [[("OL_MODEL_GRP", JsVal.str "Loyal")]] "OL_MODEL_GRP" (fun _ => []) true
    [] true none "OL_MODEL_GRP" "PV_TAX_INS" []
  refine ⟨h.1 100 ?_, ?_⟩
  · decide
  · exact (percent_agree_and_points_in_range [] "PV_VALUE" (fun _ => []) true
      [] true none "OL_MODEL_GRP" "PV_TAX_INS" []).2.1

/-- Witness for C4: the bucket characterization instantiated at price
31000 and bucket index 1, and the counts-sum equation at the example
rows. -/
theorem price_buckets_ok_witness :
    (inPriceRange (getFixedBucketRanges.getD 1 ⟨none, none, ""⟩) 31000 = true ↔
      (1 : ℕ) = bucketIdx 31000) ∧
    ((buildBucketsForRows priceRowsEx).1.map (fun b => b.count)).sum =
      (buildBucketsForRows priceRowsEx).2 := by
  have h := price_buckets_ok priceRowsEx 31000
  exact ⟨h.2.2.1 1 (by norm_num), h.2.2.2.1⟩
